import Mathlib

/-!
Verification of the my-lms learning-management system.

This file gives a shallow embedding of the data model and the view-level
algorithms of the repository (module-item sequence navigation, video
progress and completion, the teacher-of-course predicate, self-enrollment,
grading, and the declared referential-integrity rules), and proves the
specified properties about them.
-/

namespace MyLms

/-! ### Module-item sequencing (`courses/models.py`, `core/views.py`) -/

/-- A row of `courses.models.Module`: `id` is the primary key, `course_id`
the foreign key to `Course`, `position` the order within the course. -/
structure Module where
  id : Nat
  course_id : Nat
  position : Nat
deriving DecidableEq


/-- A row of `courses.models.ModuleItem`: `id` is the primary key,
`module_id` the foreign key to `Module`, `position` the order within the
module. -/
structure ModuleItem where
  id : Nat
  module_id : Nat
  position : Nat
deriving DecidableEq


/-- The stored module and module-item tables. -/
structure ModuleDb where
  modules : List Module
  items : List ModuleItem
deriving DecidableEq


/-- Position of the module a row refers to (`module__position` in the ORM
query); 0 when the module row is absent. -/
def modulePosition (db : ModuleDb) (mid : Nat) : Nat :=
  match db.modules.find? (fun m => m.id == mid) with
  | some m => m.position
  | none => 0


/-- The sort key of `order_by("module__position", "module_id", "position", "id")`. -/
def itemKey (db : ModuleDb) (it : ModuleItem) : Nat × Nat × Nat × Nat :=
  (modulePosition db it.module_id, it.module_id, it.position, it.id)


/-- Lexicographic comparison of sort keys. -/
def keyLE (a b : Nat × Nat × Nat × Nat) : Prop :=
  a.1 < b.1 ∨ (a.1 = b.1 ∧
    (a.2.1 < b.2.1 ∨ (a.2.1 = b.2.1 ∧
      (a.2.2.1 < b.2.2.1 ∨ (a.2.2.1 = b.2.2.1 ∧ a.2.2.2 ≤ b.2.2.2)))))


instance : DecidableRel keyLE := fun a b => by
  unfold keyLE; exact inferInstance


instance : IsTotal (Nat × Nat × Nat × Nat) keyLE := by
  constructor; intro a b; unfold keyLE; omega


instance : IsTrans (Nat × Nat × Nat × Nat) keyLE := by
  constructor; intro a b c hab hbc; unfold keyLE at *; omega


/-- Membership test of `ModuleItem.objects.filter(module__course=course)`:
the item's module exists and belongs to the course. -/
def itemInCourse (db : ModuleDb) (c : Nat) (it : ModuleItem) : Bool :=
  match db.modules.find? (fun m => m.id == it.module_id) with
  | some m => m.course_id == c
  | none => false


/-- All module items of the course's modules, in stored order. -/
def courseItems (db : ModuleDb) (c : Nat) : List ModuleItem :=
  db.items.filter (itemInCourse db c)


/-- Ordering relation on items induced by the sort key. -/
def itemRel (db : ModuleDb) (x y : ModuleItem) : Prop :=
  keyLE (itemKey db x) (itemKey db y)


instance (db : ModuleDb) : DecidableRel (itemRel db) := fun x y => by
  unfold itemRel; exact inferInstance


instance (db : ModuleDb) : IsTotal ModuleItem (itemRel db) := by
  constructor; intro a b; exact total_of keyLE _ _


instance (db : ModuleDb) : IsTrans ModuleItem (itemRel db) := by
  constructor; intro a b c hab hbc; exact trans_of keyLE hab hbc


/-- The materialized course-wide item sequence of `_get_sequence_neighbors`:
the items of the course's modules sorted by
(module position, module id, item position, item id). -/
def courseSequence (db : ModuleDb) (c : Nat) : List ModuleItem :=
  List.insertionSort (itemRel db) (courseItems db c)


/-- `next(i for i, it in enumerate(items) if p(it))`: the first index whose
element satisfies `p`, or `none` (`StopIteration`). -/
def findIndex {α : Type} (p : α → Bool) : List α → Option Nat
  | [] => none
  | a :: l => if p a then some 0 else (findIndex p l).map (· + 1)


/-- `core.views._get_sequence_neighbors`: locate the target by id in the
materialized sequence and return the items at index−1 and index+1, `none`
at either boundary, and (none, none) when the target is not found. -/
def getSequenceNeighbors (db : ModuleDb) (c : Nat) (current_item : ModuleItem) :
    Option ModuleItem × Option ModuleItem :=
  let items := courseSequence db c
  match findIndex (fun it => it.id == current_item.id) items with
  | none => (none, none)
  | some index =>
      ((if 0 < index then items[index - 1]? else none),
       (if index < items.length - 1 then items[index + 1]? else none))


/-- A concrete store mirroring the spec's scenario: course 1 with two
modules at positions 1 and 2, items at positions 1 and 2 in the first
module and one item in the second. -/
def exDb : ModuleDb :=
  ⟨[⟨10, 1, 1⟩, ⟨20, 1, 2⟩], [⟨1, 10, 1⟩, ⟨2, 10, 2⟩, ⟨3, 20, 1⟩]⟩


/-! ### Video progress (`core/models.py`, `core/views.py update_progress`) -/

/-- A row of `core.models.Video`: `course_id` the foreign key to `Course`,
`duration` a `PositiveIntegerField` with default 0 (seconds). -/
structure Video where
  id : Nat
  course_id : Nat
  duration : Nat
deriving DecidableEq


/-- A row of `core.models.VideoProgress` for one (user, video) pair:
`watched_time` is a `FloatField` (modelled as ℚ), `is_completed` a flag. -/
structure VideoProgress where
  watched_time : ℚ
  is_completed : Bool
deriving DecidableEq


/-- Python `int()` on a real value: truncation toward zero. -/
def truncQ (q : ℚ) : Int := if q < 0 then ⌈q⌉ else ⌊q⌋


/-- `if duration <= 0: duration = video.duration or 1` — the duration the
percent and completion computations use. -/
def effectiveDuration (video : Video) (duration : ℚ) : ℚ :=
  if duration ≤ 0 then (if video.duration = 0 then 1 else (video.duration : ℚ))
  else duration


/-- The read-modify-write core of `core.views.update_progress` after input
parsing: clamp the reported watched time to ≥ 0, take the max with the
existing record (`get_or_create` default 0), set `is_completed` once the
new watched time reaches 95% of the effective duration, and return the
integer percent `min(100, int(watched / duration * 100))`. -/
def updateProgress (video : Video) (existing : Option VideoProgress)
    (watched_time duration : ℚ) : VideoProgress × Int :=
  let d := effectiveDuration video duration
  let w := if watched_time < 0 then 0 else watched_time
  let progress := existing.getD ⟨0, false⟩
  let newWatched := max progress.watched_time w
  let newCompleted :=
    if 0 < d ∧ d * 0.95 ≤ newWatched then true else progress.is_completed
  let percent := if 0 < d then min 100 (truncQ (newWatched / d * 100)) else 0
  (⟨newWatched, newCompleted⟩, percent)


/-! ### Users, sections, enrollments (`core/models.py`, `courses/models.py`) -/

/-- `core.models.Role` choices. -/
inductive Role
  | student
  | teacher
  | ta
  | observer
  | designer
deriving DecidableEq


/-- `courses.models.EnrollmentState` choices. -/
inductive EnrollmentState
  | active
  | inactive
  | concluded
  | pending
deriving DecidableEq


/-- The request principal: a row of `core.models.User` together with the
framework's `is_authenticated` property (false for `AnonymousUser`) and
the site-wide `is_staff` administrator flag. -/
structure User where
  id : Nat
  is_authenticated : Bool
  is_staff : Bool
deriving DecidableEq


/-- A row of `courses.models.Section`: `course_id` the foreign key to
`Course`. -/
structure Section where
  id : Nat
  course_id : Nat
deriving DecidableEq


/-- A row of `courses.models.Enrollment`. -/
structure Enrollment where
  user_id : Nat
  section_id : Nat
  role : Role
  enrollment_state : EnrollmentState
deriving DecidableEq


/-- The stored section and enrollment tables. -/
structure EnrollmentDb where
  sections : List Section
  enrollments : List Enrollment
deriving DecidableEq


/-- `courses.views._user_is_teacher_for_course`: false for an
unauthenticated principal, otherwise whether an Enrollment row exists for
this user on a section of the course with role teacher and state active. -/
def userIsTeacherForCourse (db : EnrollmentDb) (user : User) (course_id : Nat) :
    Bool :=
  if !user.is_authenticated then false
  else db.enrollments.any (fun e =>
    e.user_id == user.id &&
    db.sections.any (fun s => s.id == e.section_id && s.course_id == course_id) &&
    e.role == Role.teacher &&
    e.enrollment_state == EnrollmentState.active)


/-! ### Self-enrollment (`core/views.py enroll_course`) -/

/-- The user-visible outcome of `enroll_course`. -/
inductive EnrollOutcome
  | noSection
  | alreadyEnrolled
  | enrolled
deriving DecidableEq


/-- `core.views.enroll_course` (POST): take the first Section of the
course in stored order; with no section report an error and change
nothing; with an existing Enrollment for (user, section) report "already
enrolled" and change nothing; otherwise create exactly one Enrollment with
role student and state active. -/
def enrollCourse (db : EnrollmentDb) (user_id course_id : Nat) :
    EnrollmentDb × EnrollOutcome :=
  match db.sections.find? (fun s => s.course_id == course_id) with
  | none => (db, .noSection)
  | some s =>
      if db.enrollments.any (fun e => e.user_id == user_id && e.section_id == s.id) then
        (db, .alreadyEnrolled)
      else
        ({ db with enrollments :=
            db.enrollments ++ [⟨user_id, s.id, .student, .active⟩] },
         .enrolled)


/-! ### Grading and malformed input (`courses/views.py grade_submission`,
`core/views.py update_progress` parsing) -/

/-- `courses.models.SubmissionWorkflowState` choices. -/
inductive SubmissionWorkflowState
  | submitted
  | graded
  | unsubmitted
  | late
  | missing
deriving DecidableEq


/-- The fields of a `courses.models.Submission` row that
`grade_submission` touches. -/
structure Submission where
  score : Option ℚ
  feedback : Option String
  workflow_state : SubmissionWorkflowState
deriving DecidableEq


/-- The `score` POST field as the view sees it: absent or empty (falsy),
a value `Decimal(raw_score)` parses, or one it raises `InvalidOperation`
on. -/
inductive ScoreInput
  | absent
  | parsed (q : ℚ)
  | malformed
deriving DecidableEq


/-- The POST branch of `courses.views.grade_submission`: on an unparsable
score the "Invalid score value." error is recorded and the previous score
kept, but the feedback is still overwritten, the workflow state set to
graded, and the row saved unconditionally. Returns the saved submission
and whether the error was reported. -/
def gradeSubmissionPost (submission : Submission) (raw_score : ScoreInput)
    (feedback : Option String) : Submission × Bool :=
  match raw_score with
  | .absent =>
      ({ submission with
          score := none, feedback := feedback, workflow_state := .graded }, false)
  | .parsed q =>
      ({ submission with
          score := some q, feedback := feedback, workflow_state := .graded }, false)
  | .malformed =>
      ({ submission with
          feedback := feedback, workflow_state := .graded }, true)


/-- The JSON body of `update_progress` after `json.loads` and the
`int`/`float` conversions: either the three parsed fields, or a body on
which parsing raises (`JSONDecodeError`/`TypeError`/`ValueError`). -/
inductive ProgressBody
  | valid (video_id : Nat) (watched_time duration : ℚ)
  | malformed
deriving DecidableEq


/-- The JSON response of `update_progress`. -/
inductive ProgressResponse
  | invalidParams
  | videoNotFound
  | success (percent : Int) (watched_time : ℚ) (is_completed : Bool)
deriving DecidableEq


/-- The video and per-(user, video) progress tables. -/
structure ProgressDb where
  videos : List Video
  progresses : List ((Nat × Nat) × VideoProgress)
deriving DecidableEq


/-- `core.views.update_progress` as an endpoint: a malformed body is
rejected with status 400 before any store access; a missing video id is
rejected by `get_object_or_404`; otherwise the (user, video) progress row
is upserted through `updateProgress`. -/
def updateProgressView (db : ProgressDb) (user_id : Nat) (body : ProgressBody) :
    ProgressDb × ProgressResponse :=
  match body with
  | .malformed => (db, .invalidParams)
  | .valid video_id watched_time duration =>
      match db.videos.find? (fun v => v.id == video_id) with
      | none => (db, .videoNotFound)
      | some video =>
          let existing :=
            (db.progresses.find? (fun p => p.1 == (user_id, video_id))).map (·.2)
          let res := updateProgress video existing watched_time duration
          let progresses :=
            match existing with
            | some _ => db.progresses.map
                (fun q => if q.1 == (user_id, video_id) then (q.1, res.1) else q)
            | none => db.progresses ++ [((user_id, video_id), res.1)]
          ({ db with progresses := progresses },
           .success res.2 res.1.watched_time res.1.is_completed)


/-! ### Referential integrity on delete (`courses/models.py`,
`core/models.py`) -/

/-- A row of `core.models.Term`. -/
structure Term where
  id : Nat
deriving DecidableEq


/-- A row of `courses.models.Course`: `term_id` is the protected foreign
key to `Term`. -/
structure Course where
  id : Nat
  term_id : Nat
deriving DecidableEq


/-- A row of `courses.models.Page`: `course_id` the cascading foreign key
to `Course`. -/
structure Page where
  id : Nat
  course_id : Nat
deriving DecidableEq


/-- A row of `courses.models.Assignment`: `course_id` the cascading
foreign key to `Course`. -/
structure Assignment where
  id : Nat
  course_id : Nat
deriving DecidableEq


/-- The tables involved in the declared on-delete behavior. -/
structure LmsDb where
  terms : List Term
  courses : List Course
  sections : List Section
  modules : List Module
  pages : List Page
  assignments : List Assignment
  videos : List Video
deriving DecidableEq


/-- `Course.term` is declared `on_delete=PROTECT`: deleting a Term that
some Course references raises `ProtectedError` and changes nothing
(`none`); otherwise the term row is removed. -/
def deleteTerm (db : LmsDb) (term_id : Nat) : Option LmsDb :=
  if db.courses.any (fun c => c.term_id == term_id) then none
  else some { db with terms := db.terms.filter (fun t => !(t.id == term_id)) }


/-- `Section.course`, `Module.course`, `Page.course`, `Assignment.course`
and `Video.course` are declared `on_delete=CASCADE`: deleting a Course
removes it and every row of those tables that belongs to it. -/
def deleteCourse (db : LmsDb) (course_id : Nat) : LmsDb :=
  { db with
    courses := db.courses.filter (fun c => !(c.id == course_id)),
    sections := db.sections.filter (fun s => !(s.course_id == course_id)),
    modules := db.modules.filter (fun m => !(m.course_id == course_id)),
    pages := db.pages.filter (fun p => !(p.course_id == course_id)),
    assignments := db.assignments.filter (fun a => !(a.course_id == course_id)),
    videos := db.videos.filter (fun v => !(v.course_id == course_id)) }


theorem findIndex_eq_none {α : Type} (p : α → Bool) (l : List α)
    (h : ∀ a ∈ l, p a = false) : findIndex p l = none := by
  induction l with
  | nil => rfl
  | cons a tl ih =>
      simp only [findIndex]
      rw [if_neg (by simp [h a (List.mem_cons_self a tl)]),
        ih (fun x hx => h x (List.mem_cons_of_mem a hx))]
      rfl


theorem findIndex_lt_length {α : Type} (p : α → Bool) (l : List α) (i : Nat)
    (h : findIndex p l = some i) : i < l.length := by
  induction l generalizing i with
  | nil => simp [findIndex] at h
  | cons a tl ih =>
      simp only [findIndex] at h
      simp only [List.length_cons]
      by_cases hpa : p a = true
      · rw [if_pos hpa] at h
        injection h with h
        omega
      · rw [if_neg hpa] at h
        obtain ⟨j, hj, hji⟩ := Option.map_eq_some'.mp h
        have := ih j hj
        omega


theorem findIndex_of_nodup {α : Type} (f : α → Nat) (l : List α)
    (hnd : (l.map f).Nodup) (i : Nat) (hi : i < l.length) :
    findIndex (fun a => f a == f l[i]) l = some i := by
  induction l generalizing i with
  | nil => simp at hi
  | cons a tl ih =>
      simp only [List.map_cons, List.nodup_cons] at hnd
      match i with
      | 0 => simp [findIndex]
      | j + 1 =>
          have hj : j < tl.length := by simpa using hi
          have hmem : f tl[j] ∈ tl.map f := List.mem_map_of_mem f (List.getElem_mem hj)
          have hne : ¬ (f a == f tl[j]) = true := by
            simp only [beq_iff_eq]
            intro heq
            exact hnd.1 (heq ▸ hmem)
          have hget : (a :: tl)[j + 1] = tl[j] := by simp
          simp only [findIndex]
          rw [hget, if_neg hne, ih hnd.2 j hj]
          rfl


theorem courseSequence_id_nodup (db : ModuleDb) (c : Nat)
    (hnd : (db.items.map ModuleItem.id).Nodup) :
    ((courseSequence db c).map ModuleItem.id).Nodup := by
  have hsub : (courseItems db c).Sublist db.items := List.filter_sublist db.items
  have hnd2 : ((courseItems db c).map ModuleItem.id).Nodup :=
    (hsub.map ModuleItem.id).nodup hnd
  have hperm : List.Perm (courseSequence db c) (courseItems db c) :=
    List.perm_insertionSort (itemRel db) (courseItems db c)
  exact ((hperm.map ModuleItem.id).nodup_iff).mpr hnd2


/-- C1: the traversal order of a course is the list of all items of the
course's modules sorted by (module position, module id, item position,
item id); the neighbor operation on the item at index `i` of that list
returns the item at index−1 and at index+1 with `none` at either boundary;
and previous(next(x)) = x for any interior item x of the sequence. -/
theorem sequence_navigation_correct (db : ModuleDb) (c : Nat)
    (hnd : (db.items.map ModuleItem.id).Nodup) :
    List.Sorted (itemRel db) (courseSequence db c) ∧
    List.Perm (courseSequence db c) (courseItems db c) ∧
    (∀ i (hi : i < (courseSequence db c).length),
      getSequenceNeighbors db c ((courseSequence db c)[i]) =
        ((if 0 < i then (courseSequence db c)[i - 1]? else none),
         (courseSequence db c)[i + 1]?)) ∧
    (∀ x ∈ courseSequence db c, ∀ y,
      (getSequenceNeighbors db c x).2 = some y →
      (getSequenceNeighbors db c y).1 = some x) := by
  have hseqnd := courseSequence_id_nodup db c hnd
  have hmain : ∀ i (hi : i < (courseSequence db c).length),
      getSequenceNeighbors db c ((courseSequence db c)[i]) =
        ((if 0 < i then (courseSequence db c)[i - 1]? else none),
         (courseSequence db c)[i + 1]?) := by
    intro i hi
    have hfind := findIndex_of_nodup ModuleItem.id (courseSequence db c) hseqnd i hi
    simp only [getSequenceNeighbors, hfind]
    congr 1
    by_cases hlast : i < (courseSequence db c).length - 1
    · rw [if_pos hlast]
    · rw [if_neg hlast]
      exact (List.getElem?_eq_none (by omega)).symm
  refine ⟨List.sorted_insertionSort (itemRel db) (courseItems db c),
    List.perm_insertionSort (itemRel db) (courseItems db c), hmain, ?_⟩
  intro x hx y hnext
  obtain ⟨i, hi, rfl⟩ := List.getElem_of_mem hx
  rw [hmain i hi] at hnext
  have h2 : (courseSequence db c)[i + 1]? = some y := hnext
  obtain ⟨hi1, hy⟩ := List.getElem?_eq_some.mp h2
  subst hy
  rw [hmain (i + 1) hi1]
  show (if 0 < i + 1 then (courseSequence db c)[i + 1 - 1]? else none) =
    some ((courseSequence db c)[i])
  rw [if_pos (Nat.succ_pos i)]
  simp only [Nat.add_sub_cancel]
  exact List.getElem?_eq_getElem hi


theorem sequence_navigation_correct_witness :
    List.Sorted (itemRel exDb) (courseSequence exDb 1) ∧
    List.Perm (courseSequence exDb 1) (courseItems exDb 1) ∧
    (∀ i (hi : i < (courseSequence exDb 1).length),
      getSequenceNeighbors exDb 1 ((courseSequence exDb 1)[i]) =
        ((if 0 < i then (courseSequence exDb 1)[i - 1]? else none),
         (courseSequence exDb 1)[i + 1]?)) ∧
    (∀ x ∈ courseSequence exDb 1, ∀ y,
      (getSequenceNeighbors exDb 1 x).2 = some y →
      (getSequenceNeighbors exDb 1 y).1 = some x) :=
  sequence_navigation_correct exDb 1 (by decide)


/-- C9: when no item of the materialized course sequence has the target's
id, the neighbor operation returns (none, none) rather than failing. -/
theorem sequence_neighbors_not_found (db : ModuleDb) (c : Nat)
    (x : ModuleItem) (habs : ∀ it ∈ courseSequence db c, it.id ≠ x.id) :
    getSequenceNeighbors db c x = (none, none) := by
  have h := findIndex_eq_none (fun it => it.id == x.id) (courseSequence db c)
    (fun it hit => by simp [habs it hit])
  simp only [getSequenceNeighbors, h]


theorem sequence_neighbors_not_found_witness :
    getSequenceNeighbors exDb 1 ⟨99, 10, 1⟩ = (none, none) :=
  sequence_neighbors_not_found exDb 1 ⟨99, 10, 1⟩ (by decide)


theorem effectiveDuration_pos (video : Video) (d : ℚ) :
    0 < effectiveDuration video d := by
  unfold effectiveDuration
  by_cases h : d ≤ 0
  · rw [if_pos h]
    by_cases h2 : video.duration = 0
    · rw [if_pos h2]; norm_num
    · rw [if_neg h2]
      exact_mod_cast Nat.pos_of_ne_zero h2
  · rw [if_neg h]; exact lt_of_not_le h


theorem effectiveDuration_of_pos (video : Video) (d : ℚ) (h : 0 < d) :
    effectiveDuration video d = d := by
  unfold effectiveDuration
  rw [if_neg (not_le.mpr h)]


theorem updateProgress_watched_eq (video : Video) (existing : Option VideoProgress)
    (w d : ℚ) :
    (updateProgress video existing w d).1.watched_time
      = max (existing.getD ⟨0, false⟩).watched_time (max w 0) := by
  simp only [updateProgress]
  congr 1
  rcases lt_or_le w 0 with h | h
  · rw [if_pos h, max_eq_right h.le]
  · rw [if_neg (not_lt.mpr h), max_eq_left h]


theorem updateProgress_watched_mono (video : Video) (existing : Option VideoProgress)
    (w d : ℚ) :
    (existing.getD ⟨0, false⟩).watched_time
      ≤ (updateProgress video existing w d).1.watched_time := by
  rw [updateProgress_watched_eq]
  exact le_max_left _ _


/-- C2: after each update the persisted watched-seconds equals
max(previously persisted value, report clamped to ≥ 0); every update is
non-decreasing; and along any sequence of reports the successive persisted
values form a non-decreasing chain. -/
theorem watched_seconds_monotone (video : Video) (existing : Option VideoProgress)
    (watched_time duration : ℚ) :
    ((updateProgress video existing watched_time duration).1.watched_time
      = max (existing.getD ⟨0, false⟩).watched_time (max watched_time 0)) ∧
    ((existing.getD ⟨0, false⟩).watched_time
      ≤ (updateProgress video existing watched_time duration).1.watched_time) ∧
    (∀ (p : VideoProgress) (reports : List (ℚ × ℚ)),
      ((reports.scanl
          (fun q r => (updateProgress video (some q) r.1 r.2).1) p).map
        VideoProgress.watched_time).Chain' (· ≤ ·)) := by
  refine ⟨updateProgress_watched_eq video existing watched_time duration,
    updateProgress_watched_mono video existing watched_time duration, ?_⟩
  intro p reports
  induction reports generalizing p with
  | nil => simp
  | cons r tl ih =>
      simp only [List.scanl_cons, List.singleton_append, List.map_cons]
      refine List.chain'_cons'.mpr ⟨?_, ih _⟩
      intro q hq
      cases tl with
      | nil =>
          simp only [List.scanl_nil, List.map_cons, List.map_nil,
            List.head?_cons, Option.mem_def, Option.some.injEq] at hq
          rw [← hq]
          exact updateProgress_watched_mono video (some p) r.1 r.2
      | cons r2 tl2 =>
          simp only [List.scanl_cons, List.singleton_append, List.map_cons,
            List.head?_cons, Option.mem_def, Option.some.injEq] at hq
          rw [← hq]
          exact updateProgress_watched_mono video (some p) r.1 r.2


theorem updateProgress_completed_mono (video : Video)
    (existing : Option VideoProgress) (w d : ℚ)
    (h : (existing.getD ⟨0, false⟩).is_completed = true) :
    (updateProgress video existing w d).1.is_completed = true := by
  simp only [updateProgress]
  by_cases hc : 0 < effectiveDuration video d ∧
      effectiveDuration video d * 0.95 ≤
        max (existing.getD ⟨0, false⟩).watched_time
          (if w < 0 then 0 else w)
  · rw [if_pos hc]
  · rw [if_neg hc]; exact h


/-- C3: the update sets the completed flag once the new persisted
watched-seconds reaches 95% of the effective duration, and a completed
flag that is already true is never reset by this or any later update. -/
theorem completion_monotone (video : Video) (existing : Option VideoProgress)
    (watched_time duration : ℚ) :
    ((existing.getD ⟨0, false⟩).is_completed = true →
      (updateProgress video existing watched_time duration).1.is_completed = true) ∧
    (effectiveDuration video duration * 0.95
        ≤ (updateProgress video existing watched_time duration).1.watched_time →
      (updateProgress video existing watched_time duration).1.is_completed = true) ∧
    (∀ (p : VideoProgress) (reports : List (ℚ × ℚ)), p.is_completed = true →
      ((reports.foldl
          (fun q r => (updateProgress video (some q) r.1 r.2).1) p).is_completed
        = true)) := by
  refine ⟨updateProgress_completed_mono video existing watched_time duration, ?_, ?_⟩
  case refine_2 =>
    intro p reports
    induction reports generalizing p with
    | nil => exact fun h => h
    | cons r tl ih =>
        intro h
        rw [List.foldl_cons]
        exact ih _ (updateProgress_completed_mono video (some p) r.1 r.2 h)
  · intro h
    rw [updateProgress_watched_eq] at h
    have harg : effectiveDuration video duration * 0.95 ≤
        max (existing.getD ⟨0, false⟩).watched_time
          (if watched_time < 0 then 0 else watched_time) := by
      rcases lt_or_le watched_time 0 with hw | hw
      · rw [if_pos hw]
        rw [max_eq_right hw.le] at h
        exact h
      · rw [if_neg (not_lt.mpr hw)]
        rw [max_eq_left hw] at h
        exact h
    simp only [updateProgress]
    rw [if_pos ⟨effectiveDuration_pos video duration, harg⟩]


/-- C4: for a non-negative report against a non-negative stored record,
the returned percent is exactly floor(100 × new-watched / effective
duration) clamped to [0, 100], and in particular always lies in [0, 100],
including when the reported duration is 0. -/
theorem updateProgress_percent_eq (video : Video) (existing : Option VideoProgress)
    (w d : ℚ) :
    (updateProgress video existing w d).2
      = min 100 (truncQ ((updateProgress video existing w d).1.watched_time
          / effectiveDuration video d * 100)) := by
  simp only [updateProgress]
  rw [if_pos (effectiveDuration_pos video d)]


theorem percent_in_range (video : Video) (existing : Option VideoProgress)
    (watched_time duration : ℚ) (_hw : 0 ≤ watched_time)
    (hold : 0 ≤ (existing.getD ⟨0, false⟩).watched_time) :
    ((updateProgress video existing watched_time duration).2
      = max 0 (min 100
          ⌊100 * (updateProgress video existing watched_time duration).1.watched_time
            / effectiveDuration video duration⌋)) ∧
    0 ≤ (updateProgress video existing watched_time duration).2 ∧
    (updateProgress video existing watched_time duration).2 ≤ 100 := by
  have hweq := updateProgress_watched_eq video existing watched_time duration
  have hpeq := updateProgress_percent_eq video existing watched_time duration
  obtain ⟨res, hres⟩ : ∃ r, updateProgress video existing watched_time duration = r :=
    ⟨_, rfl⟩
  rw [hres] at hweq hpeq
  rw [hres]
  have hd := effectiveDuration_pos video duration
  have hwatched : 0 ≤ res.1.watched_time := by
    rw [hweq]
    exact le_trans hold (le_max_left _ _)
  have hq : (0 : ℚ) ≤ res.1.watched_time / effectiveDuration video duration * 100 := by
    positivity
  have hfloor : (0 : Int)
      ≤ ⌊res.1.watched_time / effectiveDuration video duration * 100⌋ :=
    Int.floor_nonneg.mpr hq
  have hpercent : res.2
      = min 100 ⌊res.1.watched_time / effectiveDuration video duration * 100⌋ := by
    rw [hpeq]
    unfold truncQ
    rw [if_neg (not_lt.mpr hq)]
  have hcomm : res.1.watched_time / effectiveDuration video duration * 100
      = 100 * res.1.watched_time / effectiveDuration video duration := by
    ring
  refine ⟨?_, ?_, ?_⟩
  · rw [hpercent, ← hcomm, max_eq_right (le_min (by norm_num) hfloor)]
  · rw [hpercent]
    exact le_min (by norm_num) hfloor
  · rw [hpercent]
    exact min_le_left _ _


theorem percent_in_range_witness :
    (0 : ℚ) ≤ 590 ∧ (0 : ℚ) ≤ ((some ⟨300, false⟩ : Option VideoProgress).getD
      ⟨0, false⟩).watched_time ∧
    ((updateProgress ⟨1, 1, 600⟩ (some ⟨300, false⟩) 590 0).2
      = max 0 (min 100
          ⌊100 * (updateProgress ⟨1, 1, 600⟩ (some ⟨300, false⟩) 590 0).1.watched_time
            / effectiveDuration ⟨1, 1, 600⟩ 0⌋) ∧
    0 ≤ (updateProgress ⟨1, 1, 600⟩ (some ⟨300, false⟩) 590 0).2 ∧
    (updateProgress ⟨1, 1, 600⟩ (some ⟨300, false⟩) 590 0).2 ≤ 100) :=
  ⟨by norm_num, by norm_num,
    percent_in_range ⟨1, 1, 600⟩ (some ⟨300, false⟩) 590 0 (by norm_num) (by norm_num)⟩


/-- C10: when the reported duration is strictly positive the percent and
the completion decision are computed against it as-is — the result is
independent of the video's stored duration — so a report of
watched = 1, duration = 1 marks a 600-second video completed even though
1 second is far below 95% of the stored duration. -/
theorem client_duration_trusted (v v2 : Video) (existing : Option VideoProgress)
    (watched_time duration : ℚ) (hd : 0 < duration) :
    updateProgress v existing watched_time duration
      = updateProgress v2 existing watched_time duration ∧
    (updateProgress ⟨1, 1, 600⟩ none 1 1).1.is_completed = true ∧
    ¬ ((600 : ℚ) * 0.95 ≤ 1) := by
  refine ⟨?_, ?_, by norm_num⟩
  · simp only [updateProgress, effectiveDuration_of_pos v duration hd,
      effectiveDuration_of_pos v2 duration hd]
  · norm_num [updateProgress, effectiveDuration, truncQ]


theorem client_duration_trusted_witness :
    updateProgress ⟨1, 1, 600⟩ none 1 1 = updateProgress ⟨1, 1, 0⟩ none 1 1 ∧
    (updateProgress ⟨1, 1, 600⟩ none 1 1).1.is_completed = true ∧
    ¬ ((600 : ℚ) * 0.95 ≤ 1) :=
  client_duration_trusted ⟨1, 1, 600⟩ ⟨1, 1, 0⟩ none 1 1 (by norm_num)


/-- C5: the teacher-of-course predicate holds iff the user has an active
teacher Enrollment on some Section of the course; it is always false for
an unauthenticated principal, and it never consults the site-wide
`is_staff` administrator flag. -/
theorem teacher_predicate_correct (db : EnrollmentDb) (user : User)
    (course_id : Nat) :
    (userIsTeacherForCourse db user course_id = true ↔
      (user.is_authenticated = true ∧ ∃ e ∈ db.enrollments,
        e.user_id = user.id ∧ e.role = Role.teacher ∧
        e.enrollment_state = EnrollmentState.active ∧
        ∃ s ∈ db.sections, s.id = e.section_id ∧ s.course_id = course_id)) ∧
    (user.is_authenticated = false →
      userIsTeacherForCourse db user course_id = false) ∧
    (∀ b : Bool,
      userIsTeacherForCourse db ⟨user.id, user.is_authenticated, b⟩ course_id
        = userIsTeacherForCourse db user course_id) := by
  refine ⟨?_, ?_, fun b => rfl⟩
  · unfold userIsTeacherForCourse
    cases hauth : user.is_authenticated with
    | false => simp
    | true =>
        simp only [Bool.not_true, Bool.false_eq_true, if_false,
          List.any_eq_true, Bool.and_eq_true, beq_iff_eq, true_and]
        constructor
        · rintro ⟨e, he, ⟨⟨heu, s, hs, hsid, hsc⟩, hrole⟩, hstate⟩
          exact ⟨e, he, heu, hrole, hstate, s, hs, hsid, hsc⟩
        · rintro ⟨e, he, heu, hrole, hstate, s, hs, hsid, hsc⟩
          exact ⟨e, he, ⟨⟨heu, s, hs, hsid, hsc⟩, hrole⟩, hstate⟩
  · intro h
    unfold userIsTeacherForCourse
    rw [h]
    rfl


/-- C6: self-enrollment is rejected with no change when the course has no
Section; the chosen section is the first Section of the course in stable
store order; with an existing Enrollment for (user, section) the call is
an idempotent no-op that reports "already enrolled"; otherwise exactly one
Enrollment with role student and state active is appended. -/
theorem enroll_course_correct (db : EnrollmentDb) (user_id course_id : Nat) :
    (db.sections.find? (fun s => s.course_id == course_id) = none →
      enrollCourse db user_id course_id = (db, .noSection)) ∧
    (∀ s, db.sections.find? (fun s => s.course_id == course_id) = some s →
      (s ∈ db.sections ∧ s.course_id = course_id) ∧
      ((∃ e ∈ db.enrollments, e.user_id = user_id ∧ e.section_id = s.id) →
        enrollCourse db user_id course_id = (db, .alreadyEnrolled)) ∧
      ((¬ ∃ e ∈ db.enrollments, e.user_id = user_id ∧ e.section_id = s.id) →
        enrollCourse db user_id course_id =
          ({ db with enrollments := db.enrollments
              ++ [⟨user_id, s.id, Role.student, EnrollmentState.active⟩] },
           .enrolled))) := by
  constructor
  · intro h
    unfold enrollCourse
    rw [h]
  · intro s hs
    refine ⟨⟨List.mem_of_find?_eq_some hs, by simpa using List.find?_some hs⟩, ?_, ?_⟩
    · rintro ⟨e, he, heu, hesec⟩
      have hany : (db.enrollments.any
          fun e => e.user_id == user_id && e.section_id == s.id) = true :=
        List.any_eq_true.mpr ⟨e, he, by simp [heu, hesec]⟩
      simp [enrollCourse, hs, hany]
    · intro hnone
      have hany : ¬ ((db.enrollments.any
          fun e => e.user_id == user_id && e.section_id == s.id) = true) := by
        intro hany
        obtain ⟨e, he, hp⟩ := List.any_eq_true.mp hany
        simp only [Bool.and_eq_true, beq_iff_eq] at hp
        exact hnone ⟨e, he, hp.1, hp.2⟩
      simp [enrollCourse, hs, hany]


/-- C7 counterexample: grading a submission with an unparsable score does
NOT leave the submission unchanged — the workflow state is set to graded
and the feedback is overwritten. -/
theorem grade_malformed_mutates :
    (gradeSubmissionPost ⟨some 5, some "old", .submitted⟩ .malformed none).1
      ≠ ⟨some 5, some "old", SubmissionWorkflowState.submitted⟩ := by
  intro h
  have hw := congrArg Submission.workflow_state h
  simp [gradeSubmissionPost] at hw


/-- C7 (amended): a progress update with an unparsable body is rejected
with a validation error and leaves every progress record unchanged; a
grading request with an unparsable score reports the validation error and
keeps the previous score, but still overwrites the feedback and sets the
workflow state to graded before saving. -/
theorem malformed_input_handling (db : ProgressDb) (user_id : Nat)
    (submission : Submission) (feedback : Option String) :
    updateProgressView db user_id .malformed = (db, .invalidParams) ∧
    gradeSubmissionPost submission .malformed feedback
      = ({ submission with
            feedback := feedback, workflow_state := .graded }, true) :=
  ⟨rfl, rfl⟩


/-- C8: deleting a Term referenced by an existing Course is rejected and
leaves the store unchanged, while deleting a Course removes exactly its
Sections, Modules, Pages, Assignments, and Videos: rows of the deleted
course are gone and rows of other courses survive. -/
theorem deletion_rules (db : LmsDb) (term_id course_id : Nat) :
    ((∃ cr ∈ db.courses, cr.term_id = term_id) → deleteTerm db term_id = none) ∧
    (∀ cr ∈ (deleteCourse db course_id).courses, cr.id ≠ course_id) ∧
    ((∀ s ∈ (deleteCourse db course_id).sections, s.course_id ≠ course_id) ∧
     (∀ m ∈ (deleteCourse db course_id).modules, m.course_id ≠ course_id) ∧
     (∀ p ∈ (deleteCourse db course_id).pages, p.course_id ≠ course_id) ∧
     (∀ a ∈ (deleteCourse db course_id).assignments, a.course_id ≠ course_id) ∧
     (∀ v ∈ (deleteCourse db course_id).videos, v.course_id ≠ course_id)) ∧
    ((∀ s ∈ db.sections, s.course_id ≠ course_id →
        s ∈ (deleteCourse db course_id).sections) ∧
     (∀ m ∈ db.modules, m.course_id ≠ course_id →
        m ∈ (deleteCourse db course_id).modules) ∧
     (∀ p ∈ db.pages, p.course_id ≠ course_id →
        p ∈ (deleteCourse db course_id).pages) ∧
     (∀ a ∈ db.assignments, a.course_id ≠ course_id →
        a ∈ (deleteCourse db course_id).assignments) ∧
     (∀ v ∈ db.videos, v.course_id ≠ course_id →
        v ∈ (deleteCourse db course_id).videos)) := by
  refine ⟨?_, ?_, ⟨?_, ?_, ?_, ?_, ?_⟩, ⟨?_, ?_, ?_, ?_, ?_⟩⟩
  · rintro ⟨cr, hcr, ht⟩
    unfold deleteTerm
    rw [if_pos (List.any_eq_true.mpr ⟨cr, hcr, by simp [ht]⟩)]
  all_goals
    simp only [deleteCourse, List.mem_filter, Bool.not_eq_eq_eq_not,
      Bool.not_true, beq_eq_false_iff_ne, ne_eq]
  all_goals intro x hx
  all_goals first
    | exact hx.2
    | (intro hne; exact ⟨hx, hne⟩)


end MyLms
